import Mathlib

/-!
Shallow embedding of the workout-helper application (`src/app.py`).

The pure logic of the program is translated into executable Lean
definitions: the schema-detecting spreadsheet reader
(`read_recent_workouts`), the cell/key helpers (`cell`, `normalize_key`),
the model-response JSON parsing (`parse_response_json`, over a model of
Python's `json.loads`), and the sheet-writer row construction
(`buildAppendValues`, `append_ai_output`).  External network calls are
modelled by explicit environments; strings are Lean `String`s and Python
`str` operations (`strip`, `lower`, `replace`, slicing) are given
explicit char-list models named `py...`.
-/

namespace App

/-- Characters removed by Python `str.strip()` (the ASCII whitespace set). -/
def isStripWs (c : Char) : Bool :=
  c = ' ' || c = '\t' || c = '\n' || c = '\r' || c = '\x0b' || c = '\x0c'

/-- Python `s.strip()` on a char list: drop leading and trailing whitespace. -/
def pyStripChars (cs : List Char) : List Char :=
  ((cs.dropWhile isStripWs).reverse.dropWhile isStripWs).reverse

/-- Python `s.strip()`. -/
def pyStrip (s : String) : String :=
  ⟨pyStripChars s.data⟩

/-- ASCII lower-casing of one character (model of Python `str.lower` on the
inputs this program sees). -/
def lowerChar (c : Char) : Char :=
  if 'A' ≤ c && c ≤ 'Z' then Char.ofNat (c.toNat + 32) else c

/-- Python `s.lower()` (ASCII model). -/
def pyLower (s : String) : String :=
  ⟨s.data.map lowerChar⟩

/-- Lookup in an association list with Python-dict semantics: a dict built
by a comprehension keeps the LAST binding for a repeated key, so lookup
prefers the latest entry. -/
def pyDictGet {α : Type} : List (String × α) → String → Option α
  | [], _ => none
  | (k, v) :: rest, key =>
    match pyDictGet rest key with
    | some v' => some v'
    | none => if k = key then some v else none

/-- Python `d.get(key, default)`. -/
def pyDictGetD {α : Type} (d : List (String × α)) (key : String) (dflt : α) : α :=
  (pyDictGet d key).getD dflt

/-- Helper for `normalize_header_map`: pairs each header cell (trimmed and
lower-cased) with its column index, starting at `i`. -/
def headerEntries : Nat → List String → List (String × Nat)
  | _, [] => []
  | i, name :: rest => (pyLower (pyStrip name), i) :: headerEntries (i + 1) rest

/-- `_normalize_header_map` from `app.py`: `{name.strip().lower(): i}` over
`enumerate(header)`, modelled as an association list with dict lookup. -/
def normalize_header_map (header : List String) : List (String × Nat) :=
  headerEntries 0 header

/-- `_cell` from `app.py`: look the key up in the header index; a missing
key or a row shorter than the mapped position yields `""`. -/
def cell (row : List String) (idx : List (String × Nat)) (key : String) : String :=
  match pyDictGet idx key with
  | none => ""
  | some pos => row.getD pos ""

/-- Lower-case alphanumeric character (the class `[a-z0-9]` of the regex in
`_normalize_key`). -/
def isLowerAlnum (c : Char) : Bool :=
  ('a' ≤ c && c ≤ 'z') || ('0' ≤ c && c ≤ '9')

/-- `re.sub(r"[^a-z0-9]+", "_", s)`: every maximal run of characters
outside `[a-z0-9]` becomes a single underscore. -/
def collapseNonAlnum : List Char → List Char
  | [] => []
  | c :: rest =>
    if isLowerAlnum c then c :: collapseNonAlnum rest
    else
      match rest with
      | [] => ['_']
      | d :: rest' =>
        if isLowerAlnum d then '_' :: collapseNonAlnum (d :: rest')
        else collapseNonAlnum (d :: rest')

/-- Python `s.strip("_")`. -/
def stripUnderscores (cs : List Char) : List Char :=
  ((cs.dropWhile (· = '_')).reverse.dropWhile (· = '_')).reverse

/-- `_normalize_key` from `app.py`:
`re.sub(r"[^a-z0-9]+", "_", key.strip().lower()).strip("_")`.
(The Python source guards `key or ""` against `None`; keys here are
always strings.) -/
def normalize_key (key : String) : String :=
  ⟨stripUnderscores (collapseNonAlnum (pyLower (pyStrip key)).data)⟩

/-- The uniform in-memory shape produced by the Reader. -/
structure WorkoutEntry where
  date : String
  workout : String
  notes : String
  deriving Repr, DecidableEq

/-- The Current-schema membership test in `read_recent_workouts`:
`{"date", "day type", "exercise", "set"}.issubset(set(idx.keys()))`. -/
def hasCurrentSchema (idx : List (String × Nat)) : Bool :=
  (pyDictGet idx "date").isSome && (pyDictGet idx "day type").isSome &&
    (pyDictGet idx "exercise").isSome && (pyDictGet idx "set").isSome

/-- Body of the Current-schema loop of `read_recent_workouts`: `none`
means the row is skipped (`continue`).  The source's local variables
(`date = _cell(row, idx, "date").strip()`, …) are inlined. -/
def currentEntry (idx : List (String × Nat)) (row : List String) : Option WorkoutEntry :=
  if pyStrip (cell row idx "day type") = "" ∨ pyStrip (cell row idx "exercise") = "" then none
  else if pyLower (pyStrip (cell row idx "day type")) = "ai plan"
      ∨ pyLower (pyStrip (cell row idx "day type")) = "ai_plan" then none
  else
    some { date := pyStrip (cell row idx "date")
           workout :=
             if pyStrip (cell row idx "set") ≠ "" then
               pyStrip (cell row idx "day type") ++ (": ") ++ pyStrip (cell row idx "exercise")
                 ++ (" (set ") ++ pyStrip (cell row idx "set") ++ (")")
             else pyStrip (cell row idx "day type") ++ (": ") ++ pyStrip (cell row idx "exercise")
           notes :=
             String.intercalate (" | ")
               ((if pyStrip (cell row idx "week") ≠ "" then
                   [("week ") ++ pyStrip (cell row idx "week")]
                 else []) ++
                 (if pyStrip (cell row idx "notes") ≠ "" then [pyStrip (cell row idx "notes")]
                 else [])) }

/-- Body of the legacy-schema loop of `read_recent_workouts`: rows whose
stripped `type` cell is not exactly `"workout_log"` are skipped. -/
def legacyEntry (idx : List (String × Nat)) (row : List String) : Option WorkoutEntry :=
  if pyStrip (cell row idx "type") = "workout_log" then
    some { date := pyStrip (cell row idx "date")
           workout := pyStrip (cell row idx "workout")
           notes := pyStrip (cell row idx "notes") }
  else none

/-- Python `l[-limit:]` for a natural `limit`.  Note `l[-0:] = l[0:] = l`:
a zero limit returns the whole list. -/
def pySliceLast {α : Type} (l : List α) (limit : Nat) : List α :=
  if limit = 0 then l else l.drop (l.length - limit)

/-- The filtered/transformed sequence built by the loop in
`read_recent_workouts`, before the final tail slice. -/
def filteredWorkouts (header : List String) (body : List (List String)) : List WorkoutEntry :=
  let idx := normalize_header_map header
  if hasCurrentSchema idx then body.filterMap (currentEntry idx)
  else body.filterMap (legacyEntry idx)

/-- `read_recent_workouts` from `app.py`, its pure core: the argument is
the grid fetched from the spreadsheet (`resp.get("values", [])`), row 0
the header.  Returns `workouts[-limit:]`. -/
def read_recent_workouts (rows : List (List String)) (limit : Nat) : List WorkoutEntry :=
  match rows with
  | [] => []
  | header :: body => pySliceLast (filteredWorkouts header body) limit

/-- The spec's phrasing of the header condition: the header index built
from row 0 (each cell trimmed and lower-cased) contains all four names
`date`, `day type`, `exercise`, `set`. -/
def headerNames (header : List String) : List String :=
  header.map (fun s => pyLower (pyStrip s))

/-- Spec-side schema condition for C1 (written from the spec's words, to be
compared with the code's `hasCurrentSchema` test). -/
def specHasAllFour (header : List String) : Prop :=
  "date" ∈ headerNames header ∧ "day type" ∈ headerNames header ∧
    "exercise" ∈ headerNames header ∧ "set" ∈ headerNames header

instance (header : List String) : Decidable (specHasAllFour header) := by
  unfold specHasAllFour; infer_instance

/-- `pat` occurs as a contiguous substring of the char list. -/
def occursIn (pat : List Char) : List Char → Bool
  | [] => pat.isEmpty
  | c :: rest => pat.isPrefixOf (c :: rest) || occursIn pat rest

lemma isPrefixOf_append_extend :
    ∀ (p a b : List Char), p.isPrefixOf a = true → p.isPrefixOf (a ++ b) = true := by
  intro p
  induction p with
  | nil => intro a b _; simp [List.isPrefixOf]
  | cons x xs ih =>
    intro a b h
    cases a with
    | nil => simp [List.isPrefixOf] at h
    | cons y ys =>
      simp only [List.cons_append, List.isPrefixOf, Bool.and_eq_true] at h ⊢
      exact ⟨h.1, ih ys b h.2⟩

lemma occursIn_append_right (pat a b : List Char) (h : occursIn pat a = true)
    (hne : pat ≠ []) : occursIn pat (a ++ b) = true := by
  induction a with
  | nil =>
    simp [occursIn, List.isEmpty_iff] at h
    exact absurd h hne
  | cons c rest ih =>
    simp only [occursIn, Bool.or_eq_true] at h
    rcases h with h | h
    · simp only [List.cons_append, occursIn, Bool.or_eq_true]
      exact Or.inl (isPrefixOf_append_extend _ _ _ h)
    · simp only [List.cons_append, occursIn, Bool.or_eq_true]
      exact Or.inr (ih h)

lemma occursIn_append_left (pat a b : List Char) (h : occursIn pat b = true) :
    occursIn pat (a ++ b) = true := by
  induction a with
  | nil => simpa using h
  | cons c rest ih =>
    simp only [List.cons_append, occursIn, Bool.or_eq_true]
    exact Or.inr ih

lemma occursIn_infix (pat pre mid suf : List Char) (h : occursIn pat mid = true)
    (hne : pat ≠ []) : occursIn pat (pre ++ mid ++ suf) = true := by
  rw [List.append_assoc]
  exact occursIn_append_left pat pre _ (occursIn_append_right pat mid suf h hne)

/-- The strip of a list is an infix of it:
`l = takeWhile ++ strip ++ tail-part`. -/
lemma stripChars_infix (p : Char → Bool) (l : List Char) :
    ∃ pre suf, l = pre ++ ((l.dropWhile p).reverse.dropWhile p).reverse ++ suf := by
  refine ⟨l.takeWhile p, ((l.dropWhile p).reverse.takeWhile p).reverse, ?_⟩
  have h2 : (l.dropWhile p).reverse
      = (l.dropWhile p).reverse.takeWhile p ++ (l.dropWhile p).reverse.dropWhile p :=
    (List.takeWhile_append_dropWhile p _).symm
  have h3 := congrArg List.reverse h2
  rw [List.reverse_reverse, List.reverse_append] at h3
  rw [List.append_assoc]
  conv_lhs => rw [← List.takeWhile_append_dropWhile p l, h3]

lemma occursIn_stripChars (pat : List Char) (p : Char → Bool) (l : List Char)
    (hne : pat ≠ []) (h : occursIn pat l = false) :
    occursIn pat ((l.dropWhile p).reverse.dropWhile p).reverse = false := by
  by_contra hc
  obtain ⟨pre, suf, hl⟩ := stripChars_infix p l
  have : occursIn pat l = true := by
    rw [hl]
    exact occursIn_infix pat pre _ suf (by simpa using Bool.not_eq_false _ |>.mp hc) hne
  simp [this] at h

lemma pyDictGet_isSome_iff {α : Type} (l : List (String × α)) (key : String) :
    (pyDictGet l key).isSome = true ↔ key ∈ l.map Prod.fst := by
  induction l with
  | nil => simp [pyDictGet]
  | cons kv rest ih =>
    obtain ⟨k, v⟩ := kv
    simp only [pyDictGet, List.map_cons, List.mem_cons]
    cases hrec : pyDictGet rest key with
    | some v' =>
      simp only [Option.isSome_some, true_iff]
      right
      rw [← ih]
      simp [hrec]
    | none =>
      by_cases hk : k = key
      · simp [hk]
      · simp only [if_neg hk]
        rw [← ih]
        simp [hrec]
        exact fun h => absurd h.symm hk

lemma headerEntries_map_fst (i : Nat) (h : List String) :
    (headerEntries i h).map Prod.fst = h.map (fun s => pyLower (pyStrip s)) := by
  induction h generalizing i with
  | nil => simp [headerEntries]
  | cons s rest ih => simp [headerEntries, ih]

lemma hasCurrentSchema_iff (header : List String) :
    hasCurrentSchema (normalize_header_map header) = true ↔ specHasAllFour header := by
  unfold hasCurrentSchema specHasAllFour headerNames
  have hmap := headerEntries_map_fst 0 header
  simp only [Bool.and_eq_true, pyDictGet_isSome_iff, normalize_header_map, hmap]
  tauto

/-- C1: the Current-schema extraction path is selected iff the header index
built from row 0 (each cell trimmed and lower-cased) contains all four of
`date`, `day type`, `exercise`, `set`; any other header takes the Legacy
path. -/
theorem c1_schema_selection (header : List String) (body : List (List String)) (limit : Nat) :
    (specHasAllFour header →
      read_recent_workouts (header :: body) limit
        = pySliceLast (body.filterMap (currentEntry (normalize_header_map header))) limit)
    ∧ (¬ specHasAllFour header →
      read_recent_workouts (header :: body) limit
        = pySliceLast (body.filterMap (legacyEntry (normalize_header_map header))) limit) := by
  constructor
  · intro hspec
    have hb : hasCurrentSchema (normalize_header_map header) = true :=
      (hasCurrentSchema_iff header).mpr hspec
    simp [read_recent_workouts, filteredWorkouts, hb]
  · intro hspec
    have hb : hasCurrentSchema (normalize_header_map header) = false := by
      by_contra hc
      exact hspec ((hasCurrentSchema_iff header).mp (by simpa using Bool.not_eq_false _ |>.mp hc))
    simp [read_recent_workouts, filteredWorkouts, hb]

/-- Witness for C1: a concrete Current-schema header takes the Current path. -/
theorem c1_schema_selection_witness :
    read_recent_workouts
        [["Week", "Date", "Day Type", "Exercise", "Set"],
          ["1", "2024-01-01", "Push", "Bench", "1"]] 10
      = pySliceLast
          ([["1", "2024-01-01", "Push", "Bench", "1"]].filterMap
            (currentEntry (normalize_header_map ["Week", "Date", "Day Type", "Exercise", "Set"]))) 10 :=
  (c1_schema_selection ["Week", "Date", "Day Type", "Exercise", "Set"]
    [["1", "2024-01-01", "Push", "Bench", "1"]] 10).1 (by decide)

/-- C2: on the Current-schema path a data row is excluded exactly when its
trimmed `day_type` or trimmed `exercise` is empty, or its `day_type`
lower-cases to `"ai plan"` or `"ai_plan"`; every other row yields one
`WorkoutEntry`. -/
theorem c2_current_row_filter (idx : List (String × Nat)) (row : List String) :
    (currentEntry idx row = none ↔
      (pyStrip (cell row idx "day type") = "" ∨ pyStrip (cell row idx "exercise") = ""
        ∨ pyLower (pyStrip (cell row idx "day type")) = "ai plan"
        ∨ pyLower (pyStrip (cell row idx "day type")) = "ai_plan"))
    ∧ (¬ (pyStrip (cell row idx "day type") = "" ∨ pyStrip (cell row idx "exercise") = ""
        ∨ pyLower (pyStrip (cell row idx "day type")) = "ai plan"
        ∨ pyLower (pyStrip (cell row idx "day type")) = "ai_plan") →
      ∃ e, currentEntry idx row = some e) := by
  constructor
  · unfold currentEntry
    split
    · next h => simp [h.elim Or.inl (Or.inr ∘ Or.inl)]
    · next h =>
      split
      · next h2 =>
        simp only [true_iff]
        rcases h2 with h2 | h2
        · exact Or.inr (Or.inr (Or.inl h2))
        · exact Or.inr (Or.inr (Or.inr h2))
      · next h2 =>
        constructor
        · intro hc; exact absurd hc (Option.some_ne_none _)
        · intro hc
          exfalso
          push_neg at h h2
          rcases hc with hc | hc | hc | hc
          · exact h.1 hc
          · exact h.2 hc
          · exact h2.1 hc
          · exact h2.2 hc
  · intro h
    cases hce : currentEntry idx row with
    | some e => exact ⟨e, rfl⟩
    | none =>
      exfalso
      unfold currentEntry at hce
      push_neg at h
      rw [if_neg (by rintro (hc | hc); exacts [h.1 hc, h.2.1 hc]),
        if_neg (by rintro (hc | hc); exacts [h.2.2.1 hc, h.2.2.2 hc])] at hce
      exact Option.some_ne_none _ hce

/-- Witness for C2: a concrete non-skipped row yields an entry. -/
theorem c2_current_row_filter_witness :
    ∃ e, currentEntry (normalize_header_map ["Week", "Date", "Day Type", "Exercise", "Set"])
      ["1", "2024-01-01", "Push", "Bench", "1"] = some e :=
  (c2_current_row_filter (normalize_header_map ["Week", "Date", "Day Type", "Exercise", "Set"])
    ["1", "2024-01-01", "Push", "Bench", "1"]).2 (by decide)

/-- C9: `_cell` is total; a key missing from the header index or a row
shorter than the mapped position yields the empty string, and otherwise
the cell at the mapped position is returned.  (Totality is intrinsic:
`cell` is a Lean function, it cannot raise.) -/
theorem c9_cell_total (row : List String) (idx : List (String × Nat)) (key : String) :
    (pyDictGet idx key = none → cell row idx key = "")
    ∧ (∀ pos, pyDictGet idx key = some pos → row.length ≤ pos → cell row idx key = "")
    ∧ (∀ pos, pyDictGet idx key = some pos → pos < row.length →
        cell row idx key = row.getD pos "") := by
  refine ⟨fun h => by simp [cell, h], fun pos h hlen => ?_, fun pos h _ => by simp [cell, h]⟩
  simp [cell, h, List.getD, List.getElem?_eq_none hlen]

/-- Witness for C9: a concrete missing column and a concrete short row both
give the empty string. -/
theorem c9_cell_total_witness :
    cell ["a", "b"] (normalize_header_map ["x", "y", "z"]) "missing" = ""
    ∧ cell ["a"] (normalize_header_map ["x", "y"]) "y" = "" :=
  ⟨(c9_cell_total ["a", "b"] (normalize_header_map ["x", "y", "z"]) "missing").1 (by decide),
    (c9_cell_total ["a"] (normalize_header_map ["x", "y"]) "y").2.1 1 (by decide) (by decide)⟩

/-- C3: a kept Current-schema row yields
`workout = "{day_type}: {exercise}"` with `" (set {set_num})"` appended
exactly when the trimmed set cell is non-empty, and `notes` the `" | "`
join of `"week {week}"` (when week non-empty) and the raw sheet notes
(when non-empty); and the spec's three-row scenario grid yields the single
entry `{date "2024-01-01", workout "Push: Bench (set 1)", notes "week 1"}`. -/
theorem c3_current_row_output :
    (∀ (idx : List (String × Nat)) (row : List String),
        pyStrip (cell row idx "day type") ≠ "" →
        pyStrip (cell row idx "exercise") ≠ "" →
        pyLower (pyStrip (cell row idx "day type")) ≠ "ai plan" →
        pyLower (pyStrip (cell row idx "day type")) ≠ "ai_plan" →
        currentEntry idx row = some
          { date := pyStrip (cell row idx "date")
            workout :=
              if pyStrip (cell row idx "set") ≠ "" then
                pyStrip (cell row idx "day type") ++ (": ") ++ pyStrip (cell row idx "exercise")
                  ++ (" (set ") ++ pyStrip (cell row idx "set") ++ (")")
              else pyStrip (cell row idx "day type") ++ (": ") ++ pyStrip (cell row idx "exercise")
            notes :=
              String.intercalate (" | ")
                ((if pyStrip (cell row idx "week") ≠ "" then
                    [("week ") ++ pyStrip (cell row idx "week")]
                  else []) ++
                  (if pyStrip (cell row idx "notes") ≠ "" then [pyStrip (cell row idx "notes")]
                  else [])) })
    ∧ read_recent_workouts
        [["Week", "Date", "Day Type", "Exercise", "Set"],
          ["1", "2024-01-01", "Push", "Bench", "1"],
          ["1", "2024-01-01", "AI Plan", "Tips", "-"]] 10
      = [{ date := "2024-01-01", workout := "Push: Bench (set 1)", notes := "week 1" }] := by
  refine ⟨fun idx row h1 h2 h3 h4 => ?_, by decide⟩
  unfold currentEntry
  rw [if_neg (by rintro (hc | hc); exacts [h1 hc, h2 hc]),
    if_neg (by rintro (hc | hc); exacts [h3 hc, h4 hc])]

/-- Witness for C3: the general formula evaluated on a concrete kept row. -/
theorem c3_current_row_output_witness :
    currentEntry (normalize_header_map ["Week", "Date", "Day Type", "Exercise", "Set"])
        ["2", "2024-02-02", "Pull", "Row", ""]
      = some
          { date :=
              pyStrip (cell ["2", "2024-02-02", "Pull", "Row", ""]
                (normalize_header_map ["Week", "Date", "Day Type", "Exercise", "Set"]) "date")
            workout :=
              if pyStrip (cell ["2", "2024-02-02", "Pull", "Row", ""]
                  (normalize_header_map ["Week", "Date", "Day Type", "Exercise", "Set"]) "set") ≠ "" then
                pyStrip (cell ["2", "2024-02-02", "Pull", "Row", ""]
                    (normalize_header_map ["Week", "Date", "Day Type", "Exercise", "Set"]) "day type")
                  ++ (": ")
                  ++ pyStrip (cell ["2", "2024-02-02", "Pull", "Row", ""]
                    (normalize_header_map ["Week", "Date", "Day Type", "Exercise", "Set"]) "exercise")
                  ++ (" (set ")
                  ++ pyStrip (cell ["2", "2024-02-02", "Pull", "Row", ""]
                    (normalize_header_map ["Week", "Date", "Day Type", "Exercise", "Set"]) "set")
                  ++ (")")
              else
                pyStrip (cell ["2", "2024-02-02", "Pull", "Row", ""]
                    (normalize_header_map ["Week", "Date", "Day Type", "Exercise", "Set"]) "day type")
                  ++ (": ")
                  ++ pyStrip (cell ["2", "2024-02-02", "Pull", "Row", ""]
                    (normalize_header_map ["Week", "Date", "Day Type", "Exercise", "Set"]) "exercise")
            notes :=
              String.intercalate (" | ")
                ((if pyStrip (cell ["2", "2024-02-02", "Pull", "Row", ""]
                      (normalize_header_map ["Week", "Date", "Day Type", "Exercise", "Set"]) "week") ≠ "" then
                    [("week ")
                      ++ pyStrip (cell ["2", "2024-02-02", "Pull", "Row", ""]
                        (normalize_header_map ["Week", "Date", "Day Type", "Exercise", "Set"]) "week")]
                  else []) ++
                  (if pyStrip (cell ["2", "2024-02-02", "Pull", "Row", ""]
                      (normalize_header_map ["Week", "Date", "Day Type", "Exercise", "Set"]) "notes") ≠ "" then
                    [pyStrip (cell ["2", "2024-02-02", "Pull", "Row", ""]
                      (normalize_header_map ["Week", "Date", "Day Type", "Exercise", "Set"]) "notes")]
                  else [])) } :=
  c3_current_row_output.1 (normalize_header_map ["Week", "Date", "Day Type", "Exercise", "Set"])
    ["2", "2024-02-02", "Pull", "Row", ""] (by decide) (by decide) (by decide) (by decide)

/-- C4 counterexample: the claim quantifies over every result-count limit,
but Python `workouts[-limit:]` with `limit = 0` is `workouts[0:]`, the
whole list: a grid with one qualifying row and limit 0 returns 1 entry,
not at most 0. -/
theorem c4_counterexample :
    ¬ ((read_recent_workouts
        [["date", "type", "workout", "notes"],
          ["2024-01-01", "workout_log", "Push Day", "felt strong"]] 0).length ≤ 0) := by
  decide

/-- C4 (amended to positive limits): for every grid and every limit ≥ 1 the
Reader returns at most `limit` entries, namely the tail of the filtered
and transformed sequence in original order; with limit 10 and 15
qualifying rows exactly the last 10 are returned in original order, and an
empty grid yields the empty sequence. -/
theorem c4_tail_limit :
    (∀ limit, read_recent_workouts [] limit = [])
    ∧ (∀ rows limit, 1 ≤ limit → (read_recent_workouts rows limit).length ≤ limit)
    ∧ (∀ header body limit, 1 ≤ limit →
        read_recent_workouts (header :: body) limit
          = (filteredWorkouts header body).drop ((filteredWorkouts header body).length - limit))
    ∧ read_recent_workouts
        (["date", "type", "workout", "notes"] ::
          (List.range 15).map (fun i => ["2024-01-01", "workout_log", ("w") ++ toString i, ""]))
        10
      = ((List.range 15).drop 5).map
          (fun i => { date := "2024-01-01", workout := ("w") ++ toString i, notes := "" }) := by
  have hslice : ∀ (l : List WorkoutEntry) (limit : Nat), 1 ≤ limit →
      pySliceLast l limit = l.drop (l.length - limit) := by
    intro l limit h
    rw [pySliceLast, if_neg (by omega)]
  refine ⟨fun limit => rfl, ?_, ?_, by decide⟩
  · intro rows limit h
    cases rows with
    | nil => simp [read_recent_workouts]
    | cons header body =>
      rw [read_recent_workouts, hslice _ _ h, List.length_drop]
      omega
  · intro header body limit h
    rw [read_recent_workouts, hslice _ _ h]

/-- Witness for C4: the length bound and the tail equation at concrete inputs. -/
theorem c4_tail_limit_witness :
    (read_recent_workouts
        [["date", "type", "workout", "notes"],
          ["2024-01-01", "workout_log", "a", ""],
          ["2024-01-02", "workout_log", "b", ""]] 1).length ≤ 1 :=
  c4_tail_limit.2.1
    [["date", "type", "workout", "notes"],
      ["2024-01-01", "workout_log", "a", ""],
      ["2024-01-02", "workout_log", "b", ""]] 1 (by decide)

lemma lowerAlnum_ne_underscore {c : Char} (h : isLowerAlnum c = true) : c ≠ '_' := by
  intro he
  subst he
  exact absurd h (by decide)

lemma collapseNonAlnum_cons_pos (d : Char) (rest : List Char) (hd : isLowerAlnum d = true) :
    collapseNonAlnum (d :: rest) = d :: collapseNonAlnum rest := by
  cases rest with
  | nil => simp [collapseNonAlnum, hd]
  | cons e r => simp [collapseNonAlnum, hd]

lemma collapseNonAlnum_chars :
    ∀ (cs : List Char), ∀ c ∈ collapseNonAlnum cs, isLowerAlnum c = true ∨ c = '_' := by
  intro cs
  induction cs with
  | nil => intro c hc; simp [collapseNonAlnum] at hc
  | cons a rest ih =>
    intro c hc
    by_cases ha : isLowerAlnum a = true
    · rw [collapseNonAlnum_cons_pos a rest ha] at hc
      rcases List.mem_cons.mp hc with rfl | hc
      · exact Or.inl ha
      · exact ih c hc
    · cases rest with
      | nil =>
        simp only [collapseNonAlnum, if_neg ha, List.mem_singleton] at hc
        exact Or.inr hc
      | cons d rest' =>
        by_cases hd : isLowerAlnum d = true
        · simp only [collapseNonAlnum, if_neg ha, if_pos hd, List.mem_cons] at hc
          rcases hc with rfl | hc
          · exact Or.inr rfl
          · exact ih c hc
        · simp only [collapseNonAlnum, if_neg ha, if_neg hd] at hc
          exact ih c hc

lemma collapseNonAlnum_no_uu :
    ∀ cs : List Char, occursIn ['_', '_'] (collapseNonAlnum cs) = false := by
  intro cs
  induction cs with
  | nil => decide
  | cons a rest ih =>
    by_cases ha : isLowerAlnum a = true
    · rw [collapseNonAlnum_cons_pos a rest ha]
      have ha' : (('_' : Char) == a) = false := by
        rw [beq_eq_false_iff_ne]
        exact fun he => lowerAlnum_ne_underscore ha he.symm
      simp [occursIn, List.isPrefixOf, ha', ih]
    · cases rest with
      | nil =>
        rw [show collapseNonAlnum [a] = ['_'] from by simp [collapseNonAlnum, ha]]
        decide
      | cons d rest' =>
        by_cases hd : isLowerAlnum d = true
        · rw [show collapseNonAlnum (a :: d :: rest') = '_' :: collapseNonAlnum (d :: rest') from by
            simp [collapseNonAlnum, ha, hd]]
          have hd' : (('_' : Char) == d) = false := by
            rw [beq_eq_false_iff_ne]
            exact fun he => lowerAlnum_ne_underscore hd he.symm
          rw [collapseNonAlnum_cons_pos d rest' hd] at ih ⊢
          have ih2 := ih
          simp only [occursIn, Bool.or_eq_false_iff] at ih2
          simp [occursIn, List.isPrefixOf, hd', ih2.1, ih2.2]
        · rw [show collapseNonAlnum (a :: d :: rest') = collapseNonAlnum (d :: rest') from by
            simp [collapseNonAlnum, ha, hd]]
          exact ih

lemma head?_dropWhile_ne (p : Char → Bool) (l : List Char) (c : Char)
    (h : (l.dropWhile p).head? = some c) : p c = false := by
  have h2 := List.head?_dropWhile_not p l
  rw [h] at h2
  exact h2

lemma stripChars_head (p : Char → Bool) (l : List Char) (c : Char)
    (h : (((l.dropWhile p).reverse.dropWhile p).reverse).head? = some c) : p c = false := by
  rw [List.head?_reverse] at h
  have hBne : (l.dropWhile p).reverse.dropWhile p ≠ [] := by
    intro he
    rw [he] at h
    simp at h
  have h3 := @List.getLast?_append_of_ne_nil Char ((l.dropWhile p).reverse.takeWhile p)
    ((l.dropWhile p).reverse.dropWhile p) hBne
  rw [List.takeWhile_append_dropWhile] at h3
  rw [← h3, List.getLast?_reverse] at h
  exact head?_dropWhile_ne p l c h

lemma stripChars_getLast (p : Char → Bool) (l : List Char) (c : Char)
    (h : (((l.dropWhile p).reverse.dropWhile p).reverse).getLast? = some c) : p c = false := by
  rw [List.getLast?_reverse] at h
  exact head?_dropWhile_ne p _ c h

/-- C7: key normalization lower-cases, collapses each maximal run of
non-alphanumeric characters to one underscore and strips leading/trailing
underscores: the result contains only `[a-z0-9_]`, never starts or ends
with an underscore, never contains two adjacent underscores, and the two
examples of the spec evaluate as claimed. -/
theorem c7_normalize_key_shape :
    (∀ key : String,
        (∀ c ∈ (normalize_key key).data, isLowerAlnum c = true ∨ c = '_')
        ∧ (∀ c, (normalize_key key).data.head? = some c → c ≠ '_')
        ∧ (∀ c, (normalize_key key).data.getLast? = some c → c ≠ '_')
        ∧ occursIn ['_', '_'] (normalize_key key).data = false)
    ∧ normalize_key ("Weight (lbs)") = "weight_lbs"
    ∧ normalize_key ("  Day Type ") = "day_type" := by
  refine ⟨fun key => ?_, by decide, by decide⟩
  have hdata : (normalize_key key).data
      = stripUnderscores (collapseNonAlnum (pyLower (pyStrip key)).data) := rfl
  rw [hdata]
  set X := collapseNonAlnum (pyLower (pyStrip key)).data with hX
  refine ⟨?_, ?_, ?_, ?_⟩
  · intro c hc
    obtain ⟨pre, suf, hsplit⟩ := stripChars_infix (· = '_') X
    apply collapseNonAlnum_chars (pyLower (pyStrip key)).data c
    rw [← hX, hsplit]
    simp only [List.mem_append]
    exact Or.inl (Or.inr hc)
  · intro c hc
    have := stripChars_head (· = '_') X c hc
    simpa using this
  · intro c hc
    have := stripChars_getLast (· = '_') X c hc
    simpa using this
  · exact occursIn_stripChars ['_', '_'] (· = '_') X (by decide) (collapseNonAlnum_no_uu _)

/-- Witness for C7: the shape facts evaluated on a concrete key. -/
theorem c7_normalize_key_shape_witness :
    (isLowerAlnum 'a' = true ∨ 'a' = '_') ∧ ('a' ≠ '_') :=
  ⟨(c7_normalize_key_shape.1 ("a b")).1 'a' (by decide),
    (c7_normalize_key_shape.1 ("a b")).2.1 'a' (by decide)⟩

/-- Split a char list at the first occurrence of `c`
(Python `s.split(c, 1)`; `none` when `c` is absent, which makes the
two-target unpacking raise). -/
def splitOnceChar (c : Char) : List Char → Option (List Char × List Char)
  | [] => none
  | d :: rest =>
    if d = c then some ([], rest)
    else (splitOnceChar c rest).map (fun p => (d :: p.1, p.2))

/-- First maximal digit run of a char list (`re.search(r"\d+", s)`);
`none` when the string holds no digit (then `.group(0)` raises). -/
def firstDigitRun (cs : List Char) : Option (List Char) :=
  match cs.dropWhile (fun c => !(c.isDigit)) with
  | [] => none
  | d :: rest => some ((d :: rest).takeWhile (fun c => c.isDigit))

/-- `int` on a digit run. -/
def digitsToNat (ds : List Char) : Nat :=
  ds.foldl (fun acc c => acc * 10 + (c.toNat - 48)) 0

/-- `_parse_updated_range_rows` from `app.py`: split the range reference at
`!` and `:`, read the first digit run of each cell reference.  A raised
`ValueError`/`AttributeError` is modelled as `Except.error`. -/
def parse_updated_range_rows (updated_range : String) : Except String (Nat × Nat) :=
  match splitOnceChar '!' updated_range.data with
  | none => Except.error ("not enough values to unpack")
  | some (_, cells) =>
    match splitOnceChar ':' cells with
    | none => Except.error ("not enough values to unpack")
    | some (start_ref, end_ref) =>
      match firstDigitRun start_ref, firstDigitRun end_ref with
      | some s, some e => Except.ok (digitsToNat s, digitsToNat e)
      | _, _ => Except.error ("NoneType object has no attribute group")

/-- `_get_sheet_gid` from `app.py`: scan the sheet metadata (title, gid)
pairs in order for the configured tab name; raising `ValueError` when no
title matches is modelled as `Except.error`. -/
def get_sheet_gid (sheets : List (String × Int)) (tab_name : String) : Except String Int :=
  match sheets.find? (fun p => p.1 == tab_name) with
  | some p => Except.ok p.2
  | none => Except.error (("Could not find tab: ") ++ tab_name)

/-- Environment of external spreadsheet calls made by the Writer: the
sheet metadata used by `_get_sheet_gid`, the outcome of the `append` call
(the `updatedRange` string, `""` when absent from the reply), and the
outcome of the `batchUpdate` formatting call. -/
structure WriteEnv where
  sheets : List (String × Int)
  appendResult : List (List String) → Except String String
  batchUpdateResult : Int → Nat → Nat → Except String Unit

/-- `_color_appended_rows` from `app.py`: look up the tab's gid, then issue
the formatting `batchUpdate`; either step may fail. -/
def color_appended_rows (env : WriteEnv) (tab_name : String)
    (start_row end_row : Nat) : Except String Unit :=
  match get_sheet_gid env.sheets tab_name with
  | Except.error e => Except.error e
  | Except.ok gid => env.batchUpdateResult gid start_row end_row

/-- The rows built by `append_ai_output` before the append call: one row
per plan entry, positionally mapped to the eight fixed columns, or the
deterministic placeholder row when the plan is empty. -/
def buildAppendValues (today tips : String)
    (workout_plan : List (List (String × String))) : List (List String) :=
  let values := workout_plan.map (fun row =>
    [pyDictGetD row "week" "", pyDictGetD row "date" today, pyDictGetD row "day_type" "",
      pyDictGetD row "exercise" "", pyDictGetD row "set" "", pyDictGetD row "weight_lbs" "",
      pyDictGetD row "reps" "", pyDictGetD row "notes" ""])
  if values = [] then [["", today, "AI Plan", "No plan rows returned", "", "", "", tips]]
  else values

/-- Observable outcome of one `append_ai_output` run: the rows the append
call wrote to the sheet, and the exception (if any) that propagated out of
the function to the top-level handler. -/
structure WriteOutcome where
  written : List (List String)
  error : Option String
  deriving Repr, DecidableEq

/-- `append_ai_output` from `app.py`: build the rows, append them, and —
when the reply carries a non-empty `updatedRange` — parse it and run the
formatting call.  No exception handler surrounds the formatting step, so
its failure propagates (with the data already appended). -/
def append_ai_output (env : WriteEnv) (tab_name today tips : String)
    (workout_plan : List (List (String × String))) : WriteOutcome :=
  let values := buildAppendValues today tips workout_plan
  match env.appendResult values with
  | Except.error e => { written := [], error := some e }
  | Except.ok updated_range =>
    if updated_range = "" then { written := values, error := none }
    else
      match parse_updated_range_rows updated_range with
      | Except.error e => { written := values, error := some e }
      | Except.ok (s, e') =>
        match color_appended_rows env tab_name s e' with
        | Except.error msg => { written := values, error := some msg }
        | Except.ok _ => { written := values, error := none }

/-- C5: with an empty normalized plan the Writer appends exactly the one
placeholder row (today's date, day-type `"AI Plan"`, the fixed marker
string, tips in the notes column) — the write is never a no-op — and with
a non-empty plan it appends one row per PlanRow mapped positionally to the
eight fixed columns. -/
theorem c5_placeholder_row (today tips : String) (plan : List (List (String × String))) :
    (plan = [] → buildAppendValues today tips plan
      = [["", today, "AI Plan", "No plan rows returned", "", "", "", tips]])
    ∧ (plan ≠ [] → buildAppendValues today tips plan
        = plan.map (fun row =>
            [pyDictGetD row "week" "", pyDictGetD row "date" today, pyDictGetD row "day_type" "",
              pyDictGetD row "exercise" "", pyDictGetD row "set" "", pyDictGetD row "weight_lbs" "",
              pyDictGetD row "reps" "", pyDictGetD row "notes" ""]))
    ∧ buildAppendValues today tips plan ≠ [] := by
  refine ⟨fun h => ?_, fun h => ?_, ?_⟩
  · subst h
    simp [buildAppendValues]
  · rw [buildAppendValues, if_neg (by simpa using h)]
  · rw [buildAppendValues]
    split
    · simp
    · next h => simpa using fun he => h (by simp [he])

/-- Witness for C5: both branches at concrete inputs. -/
theorem c5_placeholder_row_witness :
    buildAppendValues ("2024-01-01") ("eat more") []
      = [["", "2024-01-01", "AI Plan", "No plan rows returned", "", "", "", "eat more"]]
    ∧ buildAppendValues ("2024-01-01") ("eat more") [[("week", "1"), ("exercise", "Bench")]]
      = [["1", "2024-01-01", "", "Bench", "", "", "", ""]] :=
  ⟨(c5_placeholder_row ("2024-01-01") ("eat more") []).1 rfl,
    by
      rw [(c5_placeholder_row ("2024-01-01") ("eat more")
        [[("week", "1"), ("exercise", "Bench")]]).2.1 (by decide)]
      decide⟩

/-- Concrete environment for C8: the append call succeeds, the tab lookup
behind the formatting call fails (empty sheet metadata). -/
def envColorFails : WriteEnv where
  sheets := []
  appendResult := fun _ => Except.ok ("Workouts!A2:H2")
  batchUpdateResult := fun _ _ _ => Except.ok ()

/-- C8 counterexample: when the post-append formatting call fails (here the
tab lookup it depends on), the exception escapes `append_ai_output` — the
run does treat it as a pipeline error, contrary to the claim. -/
theorem c8_counterexample :
    (append_ai_output envColorFails ("Workouts") ("2024-01-01") ("tips") []).error
      = some ("Could not find tab: Workouts")
    ∧ (append_ai_output envColorFails ("Workouts") ("2024-01-01") ("tips") []).written ≠ [] := by
  constructor
  · rfl
  · decide

/-- C8 (amended): a failure of the post-append formatting call (including
the tab lookup it depends on) does not roll back the data write — the
appended rows remain exactly the built rows — but the exception
propagates out of the Writer to the top-level handler, so the run reports
it as an error. -/
theorem c8_color_failure (env : WriteEnv) (tab today tips : String)
    (plan : List (List (String × String))) (ur : String) (s e : Nat) (msg : String)
    (happend : env.appendResult (buildAppendValues today tips plan) = Except.ok ur)
    (hne : ur ≠ "")
    (hparse : parse_updated_range_rows ur = Except.ok (s, e))
    (hcolor : color_appended_rows env tab s e = Except.error msg) :
    (append_ai_output env tab today tips plan).written = buildAppendValues today tips plan
    ∧ (append_ai_output env tab today tips plan).error = some msg := by
  refine ⟨?_, ?_⟩ <;> simp [append_ai_output, happend, hne, hparse, hcolor]

/-- Witness for C8's amended theorem at the concrete failing environment. -/
theorem c8_color_failure_witness :
    (append_ai_output envColorFails ("Workouts") ("2024-01-01") ("tips") []).written
      = buildAppendValues ("2024-01-01") ("tips") []
    ∧ (append_ai_output envColorFails ("Workouts") ("2024-01-01") ("tips") []).error
      = some ("Could not find tab: Workouts") :=
  c8_color_failure envColorFails ("Workouts") ("2024-01-01") ("tips") []
    ("Workouts!A2:H2") 2 2 ("Could not find tab: Workouts")
    rfl (by decide) rfl rfl

/-- Whitespace skipped between JSON tokens by Python's `json` scanner
(`[ \t\n\r]`). -/
def jsonWs (c : Char) : Bool :=
  c = ' ' || c = '\t' || c = '\n' || c = '\r'

/-- Skip inter-token whitespace. -/
def skipWs (cs : List Char) : List Char :=
  cs.dropWhile jsonWs

/-- JSON values as produced by Python `json.loads`.  Numbers keep their
literal text (the int/float distinction never matters to this program).
Objects keep their members in order; duplicate keys are resolved at lookup
(Python dicts keep the last binding). -/
inductive Json where
  | null : Json
  | bool (b : Bool) : Json
  | num (lit : String) : Json
  | str (s : String) : Json
  | arr (elems : List Json) : Json
  | obj (members : List (String × Json)) : Json
  deriving Repr

/-- Hexadecimal digit value. -/
def hexVal (c : Char) : Option Nat :=
  if '0' ≤ c && c ≤ '9' then some (c.toNat - 48)
  else if 'a' ≤ c && c ≤ 'f' then some (c.toNat - 87)
  else if 'A' ≤ c && c ≤ 'F' then some (c.toNat - 55)
  else none

/-- JSON string escapes. -/
def escChar (c : Char) : Option Char :=
  if c = '"' then some '"'
  else if c = '\\' then some '\\'
  else if c = '/' then some '/'
  else if c = 'b' then some '\x08'
  else if c = 'f' then some '\x0c'
  else if c = 'n' then some '\n'
  else if c = 'r' then some '\r'
  else if c = 't' then some '\t'
  else none

/-- Body of a JSON string after the opening quote: returns the decoded
characters and the remainder after the closing quote.  Raw control
characters are rejected, as in Python's (strict) scanner.  (`\uXXXX`
becomes a single `Char`; Python-side surrogate-pair recombination is not
modelled — no claim touches it.) -/
def parseStringBody : List Char → Option (List Char × List Char)
  | [] => none
  | '"' :: rest => some ([], rest)
  | '\\' :: 'u' :: h1 :: h2 :: h3 :: h4 :: rest =>
    (match hexVal h1, hexVal h2, hexVal h3, hexVal h4 with
      | some a, some b, some c, some d =>
        (parseStringBody rest).map (fun p => (Char.ofNat (((a * 16 + b) * 16 + c) * 16 + d) :: p.1, p.2))
      | _, _, _, _ => none)
  | '\\' :: e :: rest =>
    (match escChar e with
      | some c => (parseStringBody rest).map (fun p => (c :: p.1, p.2))
      | none => none)
  | c :: rest =>
    if c.toNat < 32 then none
    else (parseStringBody rest).map (fun p => (c :: p.1, p.2))

/-- Integer part of Python's JSON number regex, `0|[1-9]\d*` (a leading 0
takes only itself, so `01` leaves `1` as trailing garbage, as in Python). -/
def parseIntPart : List Char → Option (List Char × List Char)
  | [] => none
  | c :: rest =>
    if c = '0' then some (['0'], rest)
    else if c.isDigit then
      some (c :: rest.takeWhile (fun d => d.isDigit), rest.dropWhile (fun d => d.isDigit))
    else none

/-- Optional fraction group `(\.\d+)?`: when `.` is not followed by a
digit the group matches nothing and the `.` stays in the stream. -/
def parseFracPart : List Char → (List Char × List Char)
  | '.' :: rest =>
    (match rest.takeWhile (fun d => d.isDigit) with
      | [] => ([], '.' :: rest)
      | d :: ds => ('.' :: d :: ds, rest.dropWhile (fun e => e.isDigit)))
  | cs => ([], cs)

/-- Optional exponent group `([eE][-+]?\d+)?`. -/
def parseExpPart : List Char → (List Char × List Char)
  | [] => ([], [])
  | e :: rest =>
    if e = 'e' ∨ e = 'E' then
      match rest with
      | [] => ([], [e])
      | s :: rest2 =>
        if s = '+' ∨ s = '-' then
          match rest2.takeWhile (fun d => d.isDigit) with
          | [] => ([], e :: s :: rest2)
          | d :: ds => (e :: s :: d :: ds, rest2.dropWhile (fun f => f.isDigit))
        else
          match rest.takeWhile (fun d => d.isDigit) with
          | [] => ([], e :: rest)
          | d :: ds => (e :: d :: ds, rest.dropWhile (fun f => f.isDigit))
    else ([], e :: rest)

/-- A JSON number token (Python `NUMBER_RE`), kept as its literal text. -/
def parseNumber (cs : List Char) : Option (Json × List Char) :=
  match cs with
  | '-' :: rest =>
    (match parseIntPart rest with
      | none => none
      | some (ip, r1) =>
        let fp := parseFracPart r1
        let ep := parseExpPart fp.2
        some (Json.num ⟨'-' :: (ip ++ fp.1 ++ ep.1)⟩, ep.2))
  | _ =>
    (match parseIntPart cs with
      | none => none
      | some (ip, r1) =>
        let fp := parseFracPart r1
        let ep := parseExpPart fp.2
        some (Json.num ⟨ip ++ fp.1 ++ ep.1⟩, ep.2))

/-- Parser modes: a value, the elements of an array after its first `[`,
or the members of an object after its first `\x7b`. -/
inductive PMode where
  | value : PMode
  | elems (acc : List Json) : PMode
  | members (acc : List (String × Json)) : PMode

/-- Recursive-descent model of Python's `json.loads` grammar, fuelled so
that it is structurally recursive (and so computes by kernel reduction).
Returns the parsed value and the unconsumed remainder. -/
def parseCore : Nat → PMode → List Char → Option (Json × List Char)
  | 0, _, _ => none
  | Nat.succ f, PMode.value, cs =>
    (match skipWs cs with
      | [] => none
      | c :: rest =>
        if c = '\x7b' then
          match skipWs rest with
          | '\x7d' :: r => some (Json.obj [], r)
          | _ => parseCore f (PMode.members []) rest
        else if c = '[' then
          match skipWs rest with
          | ']' :: r => some (Json.arr [], r)
          | _ => parseCore f (PMode.elems []) rest
        else if c = '"' then
          match parseStringBody rest with
          | some (s, r) => some (Json.str ⟨s⟩, r)
          | none => none
        else if c = 't' then
          match rest with
          | 'r' :: 'u' :: 'e' :: r => some (Json.bool true, r)
          | _ => none
        else if c = 'f' then
          match rest with
          | 'a' :: 'l' :: 's' :: 'e' :: r => some (Json.bool false, r)
          | _ => none
        else if c = 'n' then
          match rest with
          | 'u' :: 'l' :: 'l' :: r => some (Json.null, r)
          | _ => none
        else if c = 'N' then
          match rest with
          | 'a' :: 'N' :: r => some (Json.num ("NaN"), r)
          | _ => none
        else if c = 'I' then
          match rest with
          | 'n' :: 'f' :: 'i' :: 'n' :: 'i' :: 't' :: 'y' :: r => some (Json.num ("Infinity"), r)
          | _ => none
        else if c = '-' then
          match rest with
          | 'I' :: 'n' :: 'f' :: 'i' :: 'n' :: 'i' :: 't' :: 'y' :: r =>
            some (Json.num ("-Infinity"), r)
          | _ => parseNumber (c :: rest)
        else if c.isDigit then parseNumber (c :: rest)
        else none)
  | Nat.succ f, PMode.elems acc, cs =>
    (match parseCore f PMode.value cs with
      | none => none
      | some (v, rest) =>
        match skipWs rest with
        | ',' :: r => parseCore f (PMode.elems (acc ++ [v])) r
        | ']' :: r => some (Json.arr (acc ++ [v]), r)
        | _ => none)
  | Nat.succ f, PMode.members acc, cs =>
    (match skipWs cs with
      | '"' :: rest =>
        (match parseStringBody rest with
          | none => none
          | some (k, r1) =>
            match skipWs r1 with
            | ':' :: r2 =>
              (match parseCore f PMode.value r2 with
                | none => none
                | some (v, r3) =>
                  match skipWs r3 with
                  | ',' :: r4 => parseCore f (PMode.members (acc ++ [(⟨k⟩, v)])) r4
                  | '\x7d' :: r4 => some (Json.obj (acc ++ [(⟨k⟩, v)]), r4)
                  | _ => none)
            | _ => none)
      | _ => none)

/-- Model of Python `json.loads`: parse one value, require only
whitespace after it; `none` models a raised `JSONDecodeError`. -/
def jsonLoads (s : String) : Option Json :=
  match parseCore (2 * s.data.length + 2) PMode.value s.data with
  | some (v, rest) => if skipWs rest = [] then some v else none
  | none => none

/-- One step of Python `str.replace` scanning: in skip state `k+1` the
char was already covered by an emitted replacement; in state `0` test the
(non-empty) pattern `p :: ps` at the current position. -/
def pyReplaceGo (p : Char) (ps rep : List Char) : Nat → List Char → List Char
  | _, [] => []
  | Nat.succ skip, _ :: rest => pyReplaceGo p ps rep skip rest
  | 0, c :: rest =>
    if (p :: ps).isPrefixOf (c :: rest) then rep ++ pyReplaceGo p ps rep ps.length rest
    else c :: pyReplaceGo p ps rep 0 rest

/-- Python `s.replace(pat, rep)`: replace every non-overlapping occurrence,
scanning left to right.  (Python's empty-pattern interleaving is not
modelled; the program only replaces non-empty fence markers.) -/
def pyReplaceAll (pat rep s : List Char) : List Char :=
  match pat with
  | [] => s
  | p :: ps => pyReplaceGo p ps rep 0 s

/-- The backquote character of the code fences. -/
def backquote : Char := Char.ofNat 96

/-- The `"```"` fence marker as a char list. -/
def fence3 : List Char := ("```").data

/-- The `"```json"` fence marker as a char list. -/
def fence7 : List Char := ("```json").data

lemma fence3_eq : fence3 = backquote :: backquote :: backquote :: [] := rfl

lemma fence7_eq :
    fence7 = backquote :: backquote :: backquote :: 'j' :: 's' :: 'o' :: 'n' :: [] := rfl

/-- `(content or "\x7b\x7d").strip()` from `_parse_response_json`:
a `None` or empty reply is replaced by the literal `"\x7b\x7d"` text of an
empty JSON object before stripping. -/
def responseText (content : Option String) : String :=
  pyStrip (match content with
    | none => "\x7b\x7d"
    | some s => if s = "" then "\x7b\x7d" else s)

/-- `text.replace("```json", "").replace("```", "").strip()` from the
retry branch of `_parse_response_json`. -/
def cleanedOf (text : String) : String :=
  pyStrip ⟨pyReplaceAll fence3 [] (pyReplaceAll fence7 [] text.data)⟩

/-- `_parse_response_json` from `app.py`: try a direct decode of the
stripped text; on failure strip the literal code fences and retry once.
`none` models the `JSONDecodeError` of the retry propagating. -/
def parse_response_json (content : Option String) : Option Json :=
  match jsonLoads (responseText content) with
  | some v => some v
  | none => jsonLoads (cleanedOf (responseText content))

/-- The JSON value grammar has no production starting with a character
that is neither whitespace nor one of the value-leading characters. -/
lemma parseCore_value_stuck (f : Nat) (c : Char) (r : List Char)
    (hws : jsonWs c = false) (h1 : c ≠ '\x7b') (h2 : c ≠ '[') (h3 : c ≠ '"') (h4 : c ≠ 't')
    (h5 : c ≠ 'f') (h6 : c ≠ 'n') (h7 : c ≠ 'N') (h8 : c ≠ 'I') (h9 : c ≠ '-')
    (h10 : c.isDigit = false) :
    parseCore f PMode.value (c :: r) = none := by
  cases f with
  | zero => rfl
  | succ f =>
    simp only [parseCore, skipWs, List.dropWhile_cons, hws, Bool.false_eq_true, if_false]
    simp [h1, h2, h3, h4, h5, h6, h7, h8, h9, h10]

lemma parseCore_backquote (f : Nat) (r : List Char) :
    parseCore f PMode.value (backquote :: r) = none :=
  parseCore_value_stuck f backquote r (by decide) (by decide) (by decide) (by decide)
    (by decide) (by decide) (by decide) (by decide) (by decide) (by decide) (by decide)

/-- The fence-wrapping of the claim: `"```json\n" + t + "\n```"`. -/
def wrapFence (t : String) : String :=
  ("```json\n") ++ t ++ ("\n```")

lemma wrapFence_data (t : String) :
    (wrapFence t).data = fence7 ++ ('\n' :: (t.data ++ ('\n' :: fence3))) := by
  show (("```json\n") ++ t ++ ("\n```")).data = _
  rw [String.data_append, String.data_append]
  rw [show ("```json\n").data = fence7 ++ ['\n'] from rfl,
    show ("\n```").data = '\n' :: fence3 from rfl]
  simp

lemma jsonLoads_wrapFence (t : String) : jsonLoads (wrapFence t) = none := by
  rw [jsonLoads, wrapFence_data, fence7_eq]
  simp only [List.cons_append]
  rw [parseCore_backquote]

lemma dropWhile_eq_self_of_head (p : Char → Bool) (cs : List Char)
    (h : ∀ c, cs.head? = some c → p c = false) : cs.dropWhile p = cs := by
  cases cs with
  | nil => rfl
  | cons c rest => rw [List.dropWhile_cons_of_neg (by simp [h c rfl])]

lemma pyStripChars_eq_self_of (cs : List Char)
    (h1 : ∀ c, cs.head? = some c → isStripWs c = false)
    (h2 : ∀ c, cs.getLast? = some c → isStripWs c = false) :
    pyStripChars cs = cs := by
  rw [pyStripChars, dropWhile_eq_self_of_head _ _ h1,
    dropWhile_eq_self_of_head _ _ (by simpa using h2), List.reverse_reverse]

lemma pyStrip_wrapFence (t : String) : pyStrip (wrapFence t) = wrapFence t := by
  have hd : (wrapFence t).data.head? = some backquote := by
    rw [wrapFence_data, fence7_eq]
    simp
  have hl : (wrapFence t).data.getLast? = some backquote := by
    rw [wrapFence_data]
    rw [@List.getLast?_append_of_ne_nil Char fence7 ('\n' :: (t.data ++ ('\n' :: fence3))) (by simp)]
    rw [show ('\n' :: (t.data ++ ('\n' :: fence3))) = ('\n' :: t.data ++ ['\n', backquote, backquote]) ++ [backquote] from by simp [fence3_eq]]
    rw [@List.getLast?_append_of_ne_nil Char ('\n' :: t.data ++ ['\n', backquote, backquote]) [backquote] (by simp)]
    rfl
  have : pyStripChars (wrapFence t).data = (wrapFence t).data :=
    pyStripChars_eq_self_of _
      (fun c hc => by rw [hd] at hc; cases hc; decide)
      (fun c hc => by rw [hl] at hc; cases hc; decide)
  exact congrArg String.mk this

lemma wrapFence_ne_empty (t : String) : wrapFence t ≠ "" := by
  intro he
  have := congrArg String.data he
  rw [wrapFence_data, fence7_eq] at this
  simp at this

/-- `str.replace` leaves a string without occurrences of the pattern
unchanged. -/
lemma pyReplaceGo_no_occur (p : Char) (ps rep : List Char) :
    ∀ s, occursIn (p :: ps) s = false → pyReplaceGo p ps rep 0 s = s := by
  intro s
  induction s with
  | nil => intro _; rfl
  | cons c rest ih =>
    intro h
    simp only [occursIn, Bool.or_eq_false_iff] at h
    rw [pyReplaceGo, if_neg (by simp [h.1]), ih h.2]

/-- A prefix of a longer pattern: if `a ++ b` starts a list, so does `a`. -/
lemma isPrefixOf_of_append (a b s : List Char)
    (h : (a ++ b).isPrefixOf s = true) : a.isPrefixOf s = true := by
  induction a generalizing s with
  | nil => simp [List.isPrefixOf]
  | cons x xs ih =>
    cases s with
    | nil => simp [List.isPrefixOf] at h
    | cons y ys =>
      simp only [List.cons_append, List.isPrefixOf, Bool.and_eq_true] at h ⊢
      exact ⟨h.1, ih ys h.2⟩

lemma occursIn_fence7_false (s : List Char) (h : occursIn fence3 s = false) :
    occursIn fence7 s = false := by
  induction s with
  | nil => decide
  | cons c rest ih =>
    simp only [occursIn, Bool.or_eq_false_iff] at h ⊢
    refine ⟨?_, ih h.2⟩
    by_contra hc
    have h7 : fence7.isPrefixOf (c :: rest) = true := by
      revert hc
      cases fence7.isPrefixOf (c :: rest) <;> simp
    have h3 : fence3.isPrefixOf (c :: rest) = true := by
      have : (fence3 ++ ('j' :: 's' :: 'o' :: 'n' :: [])).isPrefixOf (c :: rest) = true := by
        rw [show fence3 ++ ('j' :: 's' :: 'o' :: 'n' :: []) = fence7 from by
          rw [fence3_eq, fence7_eq]; rfl]
        exact h7
      exact isPrefixOf_of_append _ _ _ this
    simp [h3] at h

/-- Extending a list by `"\n```"` creates no new position at which `"```"`
starts, except inside the appended marker itself. -/
lemma fence3_not_prefixOf_append (c : Char) (rest : List Char)
    (h : fence3.isPrefixOf (c :: rest) = false) :
    fence3.isPrefixOf (c :: (rest ++ '\n' :: fence3)) = false := by
  cases rest with
  | nil =>
    rw [fence3_eq]
    simp only [List.nil_append, List.isPrefixOf, Bool.and_eq_false_iff]
    right
    left
    decide
  | cons d rest2 =>
    cases rest2 with
    | nil =>
      rw [fence3_eq]
      simp only [List.cons_append, List.nil_append, List.isPrefixOf, Bool.and_eq_false_iff]
      right
      right
      left
      decide
    | cons e rest3 =>
      rw [fence3_eq] at h ⊢
      simp only [List.cons_append, List.isPrefixOf, Bool.and_eq_false_iff] at h ⊢
      rcases h with h | h | h | h
      · exact Or.inl h
      · exact Or.inr (Or.inl h)
      · exact Or.inr (Or.inr (Or.inl h))
      · simp [List.isPrefixOf] at h

/-- Same for the longer `"```json"` pattern. -/
lemma fence7_not_prefixOf_append (c : Char) (rest : List Char)
    (h : fence3.isPrefixOf (c :: rest) = false) :
    fence7.isPrefixOf (c :: (rest ++ '\n' :: fence3)) = false := by
  by_contra hc
  have h7 : fence7.isPrefixOf (c :: (rest ++ '\n' :: fence3)) = true := by
    revert hc
    cases fence7.isPrefixOf (c :: (rest ++ '\n' :: fence3)) <;> simp
  have h3ext : fence3.isPrefixOf (c :: (rest ++ '\n' :: fence3)) = true := by
    have : (fence3 ++ ('j' :: 's' :: 'o' :: 'n' :: [])).isPrefixOf (c :: (rest ++ '\n' :: fence3)) = true := by
      rw [show fence3 ++ ('j' :: 's' :: 'o' :: 'n' :: []) = fence7 from by
        rw [fence3_eq, fence7_eq]; rfl]
      exact h7
    exact isPrefixOf_of_append _ _ _ this
  -- with at least the first three characters of the extension present,
  -- the extension cannot be blamed unless the original was short
  cases rest with
  | nil =>
    rw [fence3_eq] at h3ext
    simp only [List.nil_append, List.isPrefixOf, Bool.and_eq_true] at h3ext
    exact absurd h3ext.2.1 (by decide)
  | cons d rest2 =>
    cases rest2 with
    | nil =>
      rw [fence3_eq] at h3ext
      simp only [List.cons_append, List.nil_append, List.isPrefixOf, Bool.and_eq_true] at h3ext
      exact absurd h3ext.2.2.1 (by decide)
    | cons e rest3 =>
      rw [fence3_eq] at h h3ext
      simp only [List.cons_append, List.isPrefixOf, Bool.and_eq_true] at h3ext
      simp [List.isPrefixOf, h3ext.1, h3ext.2.1, h3ext.2.2.1] at h

/-- Scanning `t ++ "\n```"` for `"```json"` with no fence in `t` changes
nothing. -/
lemma replace7_aux :
    ∀ t : List Char, occursIn fence3 t = false →
      pyReplaceGo backquote (backquote :: backquote :: 'j' :: 's' :: 'o' :: 'n' :: []) [] 0
        (t ++ '\n' :: fence3) = t ++ '\n' :: fence3 := by
  intro t
  induction t with
  | nil => intro _; decide
  | cons c rest ih =>
    intro h
    simp only [occursIn, Bool.or_eq_false_iff] at h
    have hpre := fence7_not_prefixOf_append c rest h.1
    rw [fence7_eq] at hpre
    simp only [List.cons_append]
    rw [pyReplaceGo, if_neg (by simp [hpre]), ih h.2]

/-- Scanning `t ++ "\n```"` for `"```"` with no fence in `t` removes
exactly the trailing marker. -/
lemma replace3_aux :
    ∀ t : List Char, occursIn fence3 t = false →
      pyReplaceGo backquote (backquote :: backquote :: []) [] 0 (t ++ '\n' :: fence3)
        = t ++ ['\n'] := by
  intro t
  induction t with
  | nil => intro _; decide
  | cons c rest ih =>
    intro h
    simp only [occursIn, Bool.or_eq_false_iff] at h
    have hpre := fence3_not_prefixOf_append c rest h.1
    simp only [List.cons_append]
    rw [pyReplaceGo, if_neg (by rw [← fence3_eq]; simp [hpre]), ih h.2]

lemma replace7_wrap (t : List Char) (h : occursIn fence3 t = false) :
    pyReplaceAll fence7 [] (fence7 ++ ('\n' :: (t ++ '\n' :: fence3)))
      = '\n' :: (t ++ '\n' :: fence3) := by
  have step : pyReplaceAll fence7 [] (fence7 ++ ('\n' :: (t ++ '\n' :: fence3)))
      = '\n' :: pyReplaceGo backquote (backquote :: backquote :: 'j' :: 's' :: 'o' :: 'n' :: []) [] 0
          (t ++ '\n' :: fence3) := rfl
  rw [step, replace7_aux t h]

lemma replace3_tail (t : List Char) (h : occursIn fence3 t = false) :
    pyReplaceAll fence3 [] ('\n' :: (t ++ '\n' :: fence3)) = '\n' :: (t ++ ['\n']) := by
  have step : pyReplaceAll fence3 [] ('\n' :: (t ++ '\n' :: fence3))
      = '\n' :: pyReplaceGo backquote (backquote :: backquote :: []) [] 0 (t ++ '\n' :: fence3) := rfl
  rw [step, replace3_aux t h]

lemma pyStripChars_cons_ws (c : Char) (cs : List Char) (h : isStripWs c = true) :
    pyStripChars (c :: cs) = pyStripChars cs := by
  simp [pyStripChars, List.dropWhile_cons, h]

lemma pyStripChars_append_ws (cs : List Char) (c : Char) (h : isStripWs c = true) :
    pyStripChars (cs ++ [c]) = pyStripChars cs := by
  induction cs with
  | nil => simp [pyStripChars, List.dropWhile_cons, h]
  | cons d rest ih =>
    by_cases hd : isStripWs d = true
    · rw [List.cons_append, pyStripChars_cons_ws _ _ hd, ih, pyStripChars_cons_ws d rest hd]
    · rw [List.cons_append, pyStripChars, pyStripChars,
        List.dropWhile_cons_of_neg (by simp [hd]), List.dropWhile_cons_of_neg (by simp [hd])]
      simp only [List.reverse_cons, List.reverse_append, List.reverse_nil, List.nil_append,
        List.singleton_append, List.cons_append, List.append_assoc]
      rw [List.dropWhile_cons_of_pos (by simp [h])]

lemma pyStripChars_idem (cs : List Char) : pyStripChars (pyStripChars cs) = pyStripChars cs :=
  pyStripChars_eq_self_of _ (fun c hc => stripChars_head isStripWs cs c hc)
    (fun c hc => stripChars_getLast isStripWs cs c hc)

/-- `str.replace` of either fence marker does not touch a string without
`"```"`. -/
lemma cleanedOf_no_occur (u : String) (h : occursIn fence3 u.data = false) :
    cleanedOf u = pyStrip u := by
  rw [cleanedOf]
  have h7 : pyReplaceAll fence7 [] u.data = u.data := by
    rw [fence7_eq]
    show pyReplaceGo backquote _ [] 0 u.data = u.data
    apply pyReplaceGo_no_occur
    have h2 := occursIn_fence7_false u.data h
    rw [fence7_eq] at h2
    exact h2
  rw [h7]
  have h3 : pyReplaceAll fence3 [] u.data = u.data := by
    rw [fence3_eq]
    show pyReplaceGo backquote _ [] 0 u.data = u.data
    apply pyReplaceGo_no_occur
    rw [← fence3_eq]
    exact h
  rw [h3]

lemma cleanedOf_pyStrip (t : String) (h : occursIn fence3 t.data = false) :
    cleanedOf (pyStrip t) = pyStrip t := by
  have hs : occursIn fence3 (pyStrip t).data = false :=
    occursIn_stripChars fence3 isStripWs t.data (by decide) h
  rw [cleanedOf_no_occur _ hs]
  exact congrArg String.mk (pyStripChars_idem t.data)

lemma cleanedOf_wrapFence (t : String) (h : occursIn fence3 t.data = false) :
    cleanedOf (wrapFence t) = pyStrip t := by
  rw [cleanedOf, wrapFence_data, replace7_wrap t.data h, replace3_tail t.data h]
  have hchars : pyStripChars ('\n' :: (t.data ++ ['\n'])) = pyStripChars t.data := by
    rw [pyStripChars_cons_ws _ _ (by decide), pyStripChars_append_ws _ _ (by decide)]
  exact congrArg String.mk hchars

lemma responseText_some_ne (s : String) (h : s ≠ "") : responseText (some s) = pyStrip s := by
  simp only [responseText]
  rw [if_neg h]

/-- C6 counterexample: a JSON text that itself contains a fence marker
inside a string literal decodes directly, but wrapping it in fences and
letting the retry strip them removes the inner marker too, yielding a
different structure. -/
theorem c6_counterexample :
    jsonLoads ("\x7b\"a\": \"```\"\x7d") = some (Json.obj [("a", Json.str ("```"))])
    ∧ parse_response_json (some (wrapFence ("\x7b\"a\": \"```\"\x7d")))
        = some (Json.obj [("a", Json.str (""))])
    ∧ Json.obj [("a", Json.str ("```"))] ≠ Json.obj [("a", Json.str (""))] := by
  refine ⟨rfl, rfl, ?_⟩
  intro hcontra
  simp at hcontra

/-- C6 (amended to fence-free texts): for every text containing no `"```"`
marker, decoding it after wrapping in `"```json" … "```"` fences (which
forces the fence-stripping retry) yields exactly the direct decode of the
(stripped) unwrapped text; and whenever both the direct decode and the
fence-stripped retry fail, the decode failure propagates to the caller. -/
theorem c6_fence_equiv (t s : String) (hnf : occursIn fence3 t.data = false) :
    (parse_response_json (some (wrapFence t)) = jsonLoads (pyStrip t)
      ∧ (t ≠ "" → parse_response_json (some t) = jsonLoads (pyStrip t)))
    ∧ (jsonLoads (responseText (some s)) = none →
        jsonLoads (cleanedOf (responseText (some s))) = none →
        parse_response_json (some s) = none) := by
  refine ⟨⟨?_, ?_⟩, ?_⟩
  · unfold parse_response_json
    rw [show responseText (some (wrapFence t)) = wrapFence t from by
      simp only [responseText]
      rw [if_neg (wrapFence_ne_empty t)]
      exact pyStrip_wrapFence t]
    rw [jsonLoads_wrapFence, cleanedOf_wrapFence t hnf]
  · intro hne
    unfold parse_response_json
    rw [responseText_some_ne t hne, cleanedOf_pyStrip t hnf]
    cases jsonLoads (pyStrip t) <;> rfl
  · intro h1 h2
    unfold parse_response_json
    rw [h1, h2]

/-- Witness for C6's amended theorem at a concrete fence-free JSON text
and a concrete doubly-failing text. -/
theorem c6_fence_equiv_witness :
    parse_response_json (some (wrapFence ("\x7b\"a\": 1\x7d")))
      = jsonLoads (pyStrip ("\x7b\"a\": 1\x7d"))
    ∧ parse_response_json (some ("not json")) = none :=
  ⟨(c6_fence_equiv ("\x7b\"a\": 1\x7d") ("not json") (by decide)).1.1,
    (c6_fence_equiv ("\x7b\"a\": 1\x7d") ("not json") (by decide)).2 rfl rfl⟩

/-- Python `repr` of a decoded JSON value (single-quoted strings; nested
containers rendered recursively).  Only scalar cases are ever observed by
the claims; the container rendering is a faithful-shape approximation of
CPython's `repr`. -/
def pyRepr : Json → String
  | Json.null => "None"
  | Json.bool true => "True"
  | Json.bool false => "False"
  | Json.num lit => lit
  | Json.str s => ("\x27") ++ s ++ ("\x27")
  | Json.arr l =>
    ("[") ++ String.intercalate (", ") (l.attach.map (fun x => pyRepr x.1)) ++ ("]")
  | Json.obj kvs =>
    ("\x7b")
      ++ String.intercalate (", ")
        (kvs.attach.map (fun x => ("\x27") ++ x.1.1 ++ ("\x27: ") ++ pyRepr x.1.2))
      ++ ("\x7d")
termination_by j => sizeOf j
decreasing_by
  · have := List.sizeOf_lt_of_mem x.2
    simp only [Json.arr.sizeOf_spec]
    omega
  · have h1 := List.sizeOf_lt_of_mem x.2
    have h2 : sizeOf x.1.2 < sizeOf x.1 := by
      obtain ⟨a, b⟩ := x.1
      simp
    simp only [Json.obj.sizeOf_spec]
    omega

/-- Python `str` of a decoded JSON value: a string is itself, everything
else is its `repr`. -/
def pyStr : Json → String
  | Json.str s => s
  | v => pyRepr v

/-- Truthiness of `nrow.get(key)` in the row filter of
`generate_advice_and_next_workout`: `None` (missing key) and `""` are
falsy. -/
def truthyGet (d : List (String × String)) (key : String) : Bool :=
  match pyDictGet d key with
  | some v => decide (v ≠ "")
  | none => false

/-- The pure tail of `generate_advice_and_next_workout` from `app.py`:
parse the reply text, normalize `workout_plan` (non-mapping elements are
dropped; keys are normalized and values pass through `str(v).strip()`;
rows without a truthy `day_type` and `exercise` are dropped) and strip
`tips`.  `none` models an exception propagating (decode failure, or
`.get`/`.strip` on a value of the wrong shape). -/
def generate_advice_result (content : Option String) :
    Option (String × List (List (String × String))) :=
  match parse_response_json content with
  | none => none
  | some parsed =>
    match parsed with
    | Json.obj kvs =>
      let plan_rows :=
        match pyDictGet kvs "workout_plan" with
        | some (Json.arr l) => l
        | _ => []
      let normalized_rows := plan_rows.filterMap (fun r =>
        match r with
        | Json.obj kv =>
          let nrow := kv.map (fun p => (normalize_key p.1, pyStrip (pyStr p.2)))
          if truthyGet nrow ("day_type") && truthyGet nrow ("exercise") then some nrow
          else none
        | _ => none)
      match pyDictGet kvs "tips" with
      | none => some ("", normalized_rows)
      | some (Json.str s) => some (pyStrip s, normalized_rows)
      | some _ => none
    | _ => none

/-- C10: a `None` or empty model reply is substituted by `"\x7b\x7d"` and
decodes to the empty JSON object rather than raising; downstream this
yields `tips = ""` and an empty `workout_plan`, which makes the Writer
emit its placeholder row — not a parse failure. -/
theorem c10_blank_reply (today : String) :
    parse_response_json none = some (Json.obj [])
    ∧ parse_response_json (some ("")) = some (Json.obj [])
    ∧ generate_advice_result none = some ("", [])
    ∧ generate_advice_result (some ("")) = some ("", [])
    ∧ buildAppendValues today "" []
      = [["", today, "AI Plan", "No plan rows returned", "", "", "", ""]] := by
  refine ⟨rfl, rfl, rfl, rfl, ?_⟩
  simp [buildAppendValues]

end App
